import Mathlib

/-!
# Verification of the libcomp core against its specification

Shallow embedding of the parts of `libcomp` referenced by the claims:

* `ReadOnlyPacket` cursor operations (`src/libcomp/src/ReadOnlyPacket.cpp`),
* the inner-command framing loop of `EncryptedConnection::ParsePacket`
  (`src/libcomp/src/EncryptedConnection.cpp`),
* the Diffie-Hellman handshake completion
  (`ParseClientEncryptionStart` / `ParseServerEncryptionFinish`),
* `DatabaseMariaDB::ProcessExplicitUpdate` / `ProcessOperationalChangeSet`
  (`src/libcomp/src/DatabaseMariaDB.cpp`),
* the `PersistentObject` identity cache (`src/libcomp/src/PersistentObject.cpp`),
* the zone-partial spawn merge and the script registry
  (`src/libcomp/src/ServerDataManager.cpp`),
* the `DataStore` search-path handling (`src/libcomp/src/DataStore.cpp`).

Machine integers are modelled as `Nat` with explicit reduction modulo `2^32`
where the C++ code performs `uint32_t` arithmetic that can wrap.
-/

namespace Libcomp

/-- `2^32`, the modulus of `uint32_t` arithmetic. -/
def U32MOD : Nat := 4294967296

/-- Modelled from the spec: the hard upper bound on a packet buffer
("typically ≤ 256 KiB"); the constant's definition (`Constants.h`) is not
under `src/`.  The claims do not depend on the exact value, only on it being
positive and a multiple of 4 (the `static_assert` in `ReadOnlyPacket.cpp`). -/
def MAX_PACKET_SIZE : Nat := 262144

/-- The single error produced by `PACKET_EXCEPTION` in `ReadOnlyPacket.cpp`
(thrown on any out-of-bounds cursor move or read). -/
inductive PacketError where
  | outOfBounds
deriving DecidableEq, Repr

/-- `libcomp::ReadOnlyPacket`: a byte buffer (`mData`/`mSize`, here the list
`data` whose length is `mSize`) with a read cursor `mPosition`. -/
structure ReadOnlyPacket where
  data : List Nat
  mPosition : Nat
deriving DecidableEq, Repr

namespace ReadOnlyPacket

/-- `ReadOnlyPacket::Seek`: fails iff `MAX_PACKET_SIZE < pos`. -/
def seek (p : ReadOnlyPacket) (pos : Nat) : Except PacketError ReadOnlyPacket :=
  if MAX_PACKET_SIZE < pos then .error .outOfBounds
  else .ok { p with mPosition := pos }

/-- `ReadOnlyPacket::Skip`: no-op for 0; otherwise fails iff the advanced
position (`uint32_t` sum) exceeds `MAX_PACKET_SIZE`. -/
def skip (p : ReadOnlyPacket) (sz : Nat) : Except PacketError ReadOnlyPacket :=
  if sz = 0 then .ok p
  else if MAX_PACKET_SIZE < (p.mPosition + sz) % U32MOD then .error .outOfBounds
  else .ok { p with mPosition := (p.mPosition + sz) % U32MOD }

/-- `ReadOnlyPacket::Rewind()` (no argument): reset the cursor to 0. -/
def rewind (p : ReadOnlyPacket) : ReadOnlyPacket :=
  { p with mPosition := 0 }

/-- `ReadOnlyPacket::Rewind(uint32_t)`: no-op for 0; fails iff rewinding past
the beginning. -/
def rewindBy (p : ReadOnlyPacket) (bytes : Nat) : Except PacketError ReadOnlyPacket :=
  if bytes = 0 then .ok p
  else if bytes > p.mPosition then .error .outOfBounds
  else .ok { p with mPosition := p.mPosition - bytes }

/-- `ReadOnlyPacket::Tell`. -/
def tell (p : ReadOnlyPacket) : Nat := p.mPosition

/-- `ReadOnlyPacket::Left`: `mSize - mPosition` in `uint32_t` arithmetic
(wraps when the cursor sits past the end of the data). -/
def left (p : ReadOnlyPacket) : Nat :=
  ((p.data.length + U32MOD) - p.mPosition) % U32MOD

/-- The byte at offset `i` of the buffer. -/
def byteAt (p : ReadOnlyPacket) (i : Nat) : Nat := p.data.getD i 0

/-- `ReadOnlyPacket::ReadU16` followed by the little-endian conversion of
`ReadU16Little` (bytes `b0 b1` at the cursor denote `b0 + 256*b1`). -/
def readU16Little (p : ReadOnlyPacket) : Except PacketError (Nat × ReadOnlyPacket) :=
  if p.mPosition + 2 > p.data.length then .error .outOfBounds
  else do
    let v := p.byteAt p.mPosition + 256 * p.byteAt (p.mPosition + 1)
    let p' ← p.skip 2
    pure (v, p')

/-- `ReadOnlyPacket::ReadU32` followed by the big-endian conversion of
`ReadU32Big` (bytes `b0 b1 b2 b3` denote `b0*2^24 + b1*2^16 + b2*2^8 + b3`). -/
def readU32Big (p : ReadOnlyPacket) : Except PacketError (Nat × ReadOnlyPacket) :=
  if p.mPosition + 4 > p.data.length then .error .outOfBounds
  else do
    let v := p.byteAt p.mPosition * 16777216 + p.byteAt (p.mPosition + 1) * 65536 +
      p.byteAt (p.mPosition + 2) * 256 + p.byteAt (p.mPosition + 3)
    let p' ← p.skip 4
    pure (v, p')

/-- `ReadOnlyPacket::PeekU32Big`: as `readU32Big` but the cursor stays put. -/
def peekU32Big (p : ReadOnlyPacket) : Except PacketError Nat :=
  if p.mPosition + 4 > p.data.length then .error .outOfBounds
  else .ok (p.byteAt p.mPosition * 16777216 + p.byteAt (p.mPosition + 1) * 65536 +
    p.byteAt (p.mPosition + 2) * 256 + p.byteAt (p.mPosition + 3))

/-- `ReadOnlyPacket::ReadArray(sz)`: returns the `sz` bytes at the cursor and
advances past them; fails when fewer than `sz` bytes remain. -/
def readArray (p : ReadOnlyPacket) (sz : Nat) : Except PacketError (List Nat × ReadOnlyPacket) :=
  if sz = 0 then .ok ([], p)
  else if p.mPosition + sz > p.data.length then .error .outOfBounds
  else do
    let buf := (p.data.drop p.mPosition).take sz
    let p' ← p.skip sz
    pure (buf, p')

/-- The slicing constructor `ReadOnlyPacket(other, start, size)`: a shallow
view of `size` bytes starting at `start`, with its own cursor at 0; fails when
`start + size` exceeds the source's size. -/
def slice (p : ReadOnlyPacket) (start size : Nat) : Except PacketError ReadOnlyPacket :=
  if start + size > p.data.length then .error .outOfBounds
  else .ok { data := (p.data.drop start).take size, mPosition := 0 }

/-- `ReadOnlyPacket::ReadString32Big(encoding, trimNull = false)`: a
big-endian `u32` length prefix followed by that many body bytes.  The UTF-8
decode of `Convert::FromEncoding` is modelled as the identity on byte lists. -/
def readString32Big (p : ReadOnlyPacket) : Except PacketError (List Nat × ReadOnlyPacket) := do
  let (sz, p1) ← p.readU32Big
  let (buf, p2) ← p1.readArray sz
  pure (buf, p2)

end ReadOnlyPacket

/-! ## Inner-command framing (`EncryptedConnection::ParsePacket`) -/

/-- A message enqueued by `EncryptedConnection::ParsePacket`:
`libcomp::Message::Packet(self, commandCode, command)`, modelled with the
connection as an identifier. -/
structure Msg where
  conn : Nat
  commandCode : Nat
  payload : List Nat
deriving DecidableEq, Repr

/-- The ways `EncryptedConnection::ParsePacket(packet, paddedSize, realSize)`
calls `SocketError` (or lets a `PACKET_EXCEPTION` escape to `PacketReceived`,
which also ends in `SocketError`). `fuelOut` is an artifact of the fuel-based
recursion and is unreachable for the fuel used by `parseFrame`. -/
inductive SocketErr where
  | corruptHeader
  | corruptCommand
  | corruptCommandData
  | extraData
  | packetExc
  | fuelOut
deriving DecidableEq, Repr

/-- Case analysis on a fallible packet operation: `err` is the result when a
`PACKET_EXCEPTION` escapes (caught by `PacketReceived`, ending in
`SocketError`), `k` continues with the operation's value. -/
def tryOp {α β : Type} (e : Except PacketError α) (err : β) (k : α → β) : β :=
  match e with
  | .error _ => err
  | .ok x => k x

@[simp] theorem tryOp_ok {α β : Type} (x : α) (err : β) (k : α → β) :
    tryOp (.ok x) err k = k x := rfl

@[simp] theorem tryOp_error {α β : Type} (e : PacketError) (err : β) (k : α → β) :
    tryOp (.error e) err k = err := rfl

/-- The command-splitting `while` loop of
`EncryptedConnection::ParsePacket(packet, paddedSize, realSize)`
(`EncryptedConnection.cpp`, lines 567-641), including the final padding skip
and leftover check.  `acc` holds the messages enqueued so far (newest first);
the result lists them in enqueue order together with the error, if any.
The message-queue and `shared_from_this` null checks of the source always
succeed in this model (the receiver owns a live queue). -/
def parseLoop (conn padding : Nat) : Nat → ReadOnlyPacket → List Msg → List Msg × Option SocketErr
  | 0, _, acc => (acc.reverse, some .fuelOut)
  | fuel + 1, copy, acc =>
    if copy.left > padding then
      if copy.left < 6 then (acc.reverse, some .corruptHeader)
      else
        tryOp (copy.skip 2) (acc.reverse, some .packetExc) fun c1 =>
        let commandStart := c1.tell
        tryOp c1.readU16Little (acc.reverse, some .packetExc) fun r1 =>
        let commandSize := r1.1
        tryOp r1.2.readU16Little (acc.reverse, some .packetExc) fun r2 =>
        let commandCode := r2.1
        let c3 := r2.2
        if commandSize < 4 then (acc.reverse, some .corruptCommand)
        else if c3.left < commandSize - 4 then (acc.reverse, some .corruptCommandData)
        else
          tryOp (c3.slice (commandStart + 4) (commandSize - 4))
            (acc.reverse, some .packetExc) fun command =>
          let msg : Msg := ⟨conn, commandCode, command.data⟩
          tryOp (c3.seek (commandStart + commandSize))
            ((msg :: acc).reverse, some .packetExc) fun c4 =>
          parseLoop conn padding fuel c4 (msg :: acc)
    else
      tryOp (copy.skip padding) (acc.reverse, some .packetExc) fun c1 =>
      if c1.left ≠ 0 then (acc.reverse, some .extraData) else (acc.reverse, none)

/-- `EncryptedConnection::ParsePacket(packet, paddedSize, realSize)` on an
already decrypted frame (`DecryptPacket` precedes this; `DecompressPacket` is
the identity in this class and the capture sink is I/O only):
seek to `dataStart = 8`, compute `padding = paddedSize - realSize`
(`uint32_t` subtraction), then run the command loop.  Each loop iteration
advances the cursor by at least 6 bytes, so `data.length + 1` fuel never runs
out. -/
def parseFrame (conn : Nat) (packet : ReadOnlyPacket) (paddedSize realSize : Nat) :
    List Msg × Option SocketErr :=
  tryOp (packet.seek 8) ([], some .packetExc) fun copy =>
    let padding := ((paddedSize + U32MOD) - realSize) % U32MOD
    parseLoop conn padding (packet.data.length + 1) copy []

/-- One inner command as framed by the wire format: a skipped 2-byte
big-endian size hint, a little-endian `u16` `commandSize` (4 plus the payload
length), a little-endian `u16` `commandCode`, then the payload. -/
structure InnerCommand where
  hint1 : Nat
  hint2 : Nat
  commandCode : Nat
  payload : List Nat
deriving DecidableEq, Repr

/-- Little-endian 2-byte encoding of a `u16` value. -/
def encodeU16LE (v : Nat) : List Nat := [v % 256, v / 256 % 256]

/-- The wire bytes of one inner command. -/
def encodeCommand (c : InnerCommand) : List Nat :=
  [c.hint1, c.hint2] ++ encodeU16LE (c.payload.length + 4) ++
    encodeU16LE c.commandCode ++ c.payload

/-- The wire bytes of a list of inner commands, in order. -/
def encodeCommands (cs : List InnerCommand) : List Nat :=
  (cs.map encodeCommand).flatten

/-- The message `ParsePacket` enqueues for one inner command. -/
def msgOf (conn : Nat) (c : InnerCommand) : Msg :=
  ⟨conn, c.commandCode, c.payload⟩

/-! ### Evaluation lemmas for the packet primitives -/

theorem max_lt_u32 : MAX_PACKET_SIZE < U32MOD := by decide

theorem left_eval (l : List Nat) (pos : Nat) (hpos : pos ≤ l.length)
    (hlen : l.length ≤ MAX_PACKET_SIZE) :
    ReadOnlyPacket.left ⟨l, pos⟩ = l.length - pos := by
  have := max_lt_u32
  simp only [ReadOnlyPacket.left, U32MOD] at *
  omega

theorem skip_eval (l : List Nat) (pos sz : Nat) (h : pos + sz ≤ MAX_PACKET_SIZE) :
    ReadOnlyPacket.skip ⟨l, pos⟩ sz = .ok ⟨l, pos + sz⟩ := by
  have hm := max_lt_u32
  rcases Nat.eq_zero_or_pos sz with h0 | h0
  · subst h0; simp [ReadOnlyPacket.skip]
  · have h1 : (pos + sz) % U32MOD = pos + sz := Nat.mod_eq_of_lt (by omega)
    simp only [ReadOnlyPacket.skip, h1]
    rw [if_neg (by omega), if_neg (by omega)]

theorem seek_eval (l : List Nat) (pos v : Nat) (h : v ≤ MAX_PACKET_SIZE) :
    ReadOnlyPacket.seek ⟨l, pos⟩ v = .ok ⟨l, v⟩ := by
  simp only [ReadOnlyPacket.seek]
  rw [if_neg (by omega)]

theorem readU16Little_eval (l : List Nat) (pos : Nat) (h2 : pos + 2 ≤ l.length)
    (hlen : l.length ≤ MAX_PACKET_SIZE) :
    ReadOnlyPacket.readU16Little ⟨l, pos⟩ =
      .ok (l.getD pos 0 + 256 * l.getD (pos + 1) 0, ⟨l, pos + 2⟩) := by
  simp only [ReadOnlyPacket.readU16Little, ReadOnlyPacket.byteAt]
  rw [if_neg (by omega)]
  rw [skip_eval l pos 2 (by omega)]
  rfl

theorem slice_eval (l : List Nat) (pos start size : Nat) (h : start + size ≤ l.length) :
    ReadOnlyPacket.slice ⟨l, pos⟩ start size =
      .ok ⟨(l.drop start).take size, 0⟩ := by
  simp only [ReadOnlyPacket.slice]
  rw [if_neg (by omega)]

/-- Byte decode of `encodeU16LE` round-trips for values below `2^16`. -/
theorem encodeU16LE_decode (v : Nat) (h : v < 65536) :
    v % 256 + 256 * (v / 256 % 256) = v := by omega

theorem encodeCommand_length (c : InnerCommand) :
    (encodeCommand c).length = 6 + c.payload.length := by
  simp [encodeCommand, encodeU16LE]
  omega

theorem encodeCommands_cons (c : InnerCommand) (cs : List InnerCommand) :
    encodeCommands (c :: cs) = encodeCommand c ++ encodeCommands cs := by
  simp [encodeCommands]

theorem encodeCommands_length_ge (cs : List InnerCommand) :
    cs.length ≤ (encodeCommands cs).length := by
  induction cs with
  | nil => simp [encodeCommands]
  | cons c cs ih =>
    rw [encodeCommands_cons]
    simp only [List.length_append, List.length_cons, encodeCommand_length]
    omega

theorem getD_pre (pre l : List Nat) (k : Nat) :
    (pre ++ l).getD (pre.length + k) 0 = l.getD k 0 := by
  rw [List.getD_append_right _ _ _ _ (by omega)]
  simp

/-- Well-formedness of an inner command: its fields fit the `u16` wire
encoding. -/
def wfCommand (c : InnerCommand) : Prop :=
  c.commandCode < 65536 ∧ c.payload.length + 4 ≤ 65535

instance (c : InnerCommand) : Decidable (wfCommand c) := by
  unfold wfCommand; infer_instance

/-- The command loop consumes a run of well-formed encoded commands,
enqueueing one message per command in encounter order, and continues at the
first byte after them. -/
theorem parseLoop_consume (conn padding : Nat) (cmds : List InnerCommand) :
    ∀ (pre suffix : List Nat) (fuel : Nat) (acc : List Msg),
    (∀ c ∈ cmds, wfCommand c) →
    (pre ++ (encodeCommands cmds ++ suffix)).length ≤ MAX_PACKET_SIZE →
    padding ≤ suffix.length →
    parseLoop conn padding (fuel + cmds.length)
        ⟨pre ++ (encodeCommands cmds ++ suffix), pre.length⟩ acc
      = parseLoop conn padding fuel
          ⟨pre ++ (encodeCommands cmds ++ suffix), pre.length + (encodeCommands cmds).length⟩
          ((cmds.map (msgOf conn)).reverse ++ acc) := by
  induction cmds with
  | nil => intro pre suffix fuel acc _ _ _; simp [encodeCommands]
  | cons c rest ih =>
    intro pre suffix fuel acc hwf hmax hpad
    obtain ⟨hcode, hsize⟩ := hwf c (List.mem_cons_self c rest)
    set pl := c.payload with hpl
    set z := encodeCommands rest ++ suffix with hz
    set n := pre.length with hn
    -- the head command as an explicit byte chain
    have hsplit : encodeCommands (c :: rest) ++ suffix
        = c.hint1 :: c.hint2 :: (pl.length + 4) % 256 :: (pl.length + 4) / 256 % 256 ::
          c.commandCode % 256 :: c.commandCode / 256 % 256 :: (pl ++ z) := by
      simp [encodeCommands_cons, encodeCommand, encodeU16LE, hz]
    set L := pre ++ (encodeCommands (c :: rest) ++ suffix) with hL
    have hlen : L.length = n + 6 + pl.length + z.length := by
      rw [hL, hsplit]
      simp
      omega
    have hmaxL : L.length ≤ MAX_PACKET_SIZE := hmax
    have hzlen : padding ≤ z.length := by
      rw [hz]; simp only [List.length_append]; omega
    -- one unfolding of the loop
    rw [show fuel + (c :: rest).length = (fuel + rest.length) + 1 from by simp; omega]
    rw [parseLoop]
    rw [left_eval L n (by omega) hmaxL]
    rw [if_pos (by omega), if_neg (by omega)]
    rw [show (⟨L, n⟩ : ReadOnlyPacket).skip 2 = .ok ⟨L, n + 2⟩ from
      skip_eval L n 2 (by omega)]
    simp only [tryOp_ok, ReadOnlyPacket.tell]
    rw [readU16Little_eval L (n + 2) (by omega) hmaxL]
    simp only [tryOp_ok]
    rw [readU16Little_eval L (n + 2 + 2) (by omega) hmaxL]
    simp only [tryOp_ok]
    -- decode the four header bytes
    have hb2 : L.getD (n + 2) 0 = (pl.length + 4) % 256 := by
      rw [hL, hsplit, hn, getD_pre]; rfl
    have hb3 : L.getD (n + 2 + 1) 0 = (pl.length + 4) / 256 % 256 := by
      rw [hL, hsplit, hn, show pre.length + 2 + 1 = pre.length + 3 from rfl, getD_pre]; rfl
    have hb4 : L.getD (n + 4) 0 = c.commandCode % 256 := by
      rw [hL, hsplit, hn, getD_pre]; rfl
    have hb5 : L.getD (n + 4 + 1) 0 = c.commandCode / 256 % 256 := by
      rw [hL, hsplit, hn, show pre.length + 4 + 1 = pre.length + 5 from rfl, getD_pre]; rfl
    rw [hb2, hb3, hb4, hb5, encodeU16LE_decode (pl.length + 4) (by omega),
      encodeU16LE_decode c.commandCode hcode]
    rw [if_neg (by omega)]
    rw [left_eval L (n + 2 + 2 + 2) (by omega) hmaxL]
    rw [if_neg (by omega)]
    rw [show (⟨L, n + 2 + 2 + 2⟩ : ReadOnlyPacket).slice (n + 2 + 4) (pl.length + 4 - 4)
        = .ok ⟨(L.drop (n + 2 + 4)).take (pl.length + 4 - 4), 0⟩ from
      slice_eval L _ _ _ (by omega)]
    simp only [tryOp_ok]
    have hdrop : (L.drop (n + 2 + 4)).take (pl.length + 4 - 4) = pl := by
      have h6 : L = (pre ++ [c.hint1, c.hint2, (pl.length + 4) % 256,
          (pl.length + 4) / 256 % 256, c.commandCode % 256,
          c.commandCode / 256 % 256]) ++ (pl ++ z) := by
        rw [hL, hsplit]; simp
      have h6len : (pre ++ [c.hint1, c.hint2, (pl.length + 4) % 256,
          (pl.length + 4) / 256 % 256, c.commandCode % 256,
          c.commandCode / 256 % 256]).length = n + 2 + 4 := by simp [hn]
      rw [h6, ← h6len, List.drop_left, show pl.length + 4 - 4 = pl.length from by omega,
        List.take_left]
    rw [hdrop]
    rw [show (⟨L, n + 2 + 2 + 2⟩ : ReadOnlyPacket).seek (n + 2 + (pl.length + 4))
        = .ok ⟨L, n + 2 + (pl.length + 4)⟩ from seek_eval L _ _ (by omega)]
    simp only [tryOp_ok]
    -- apply the induction hypothesis with the consumed command moved into the prefix
    have hsplit2 : L = (pre ++ encodeCommand c) ++ (encodeCommands rest ++ suffix) := by
      rw [hL, encodeCommands_cons]; simp
    have hpre2 : (pre ++ encodeCommand c).length = n + 2 + (pl.length + 4) := by
      simp [hn, encodeCommand_length, hpl]; omega
    have := ih (pre ++ encodeCommand c) suffix fuel (msgOf conn c :: acc)
      (fun d hd => hwf d (List.mem_cons_of_mem c hd))
      (by rw [← hsplit2]; exact hmaxL) hpad
    rw [hpre2] at this
    rw [show (⟨L, n + 2 + (pl.length + 4)⟩ : ReadOnlyPacket)
        = ⟨(pre ++ encodeCommand c) ++ (encodeCommands rest ++ suffix),
            n + 2 + (pl.length + 4)⟩ from by rw [← hsplit2]]
    rw [show (⟨conn, c.commandCode, pl⟩ : Msg) = msgOf conn c from rfl]
    rw [this, ← hsplit2]
    have harr : n + 2 + (pl.length + 4) + (encodeCommands rest).length
        = n + (encodeCommands (c :: rest)).length := by
      rw [encodeCommands_cons]; simp [encodeCommand_length, hpl]; omega
    rw [harr]
    simp

/-- When the cursor sits exactly `padding` bytes before the end, the loop
exits, skips the padding, finds no leftover data and reports no error. -/
theorem parseLoop_done (conn : Nat) (l : List Nat) (padding fuel : Nat) (acc : List Msg)
    (hlen : l.length ≤ MAX_PACKET_SIZE) (hpad : padding ≤ l.length) :
    parseLoop conn padding (fuel + 1) ⟨l, l.length - padding⟩ acc = (acc.reverse, none) := by
  rw [parseLoop]
  rw [left_eval l (l.length - padding) (by omega) hlen]
  rw [if_neg (by omega)]
  rw [show (⟨l, l.length - padding⟩ : ReadOnlyPacket).skip padding
      = .ok ⟨l, l.length - padding + padding⟩ from skip_eval l _ _ (by omega)]
  simp only [tryOp_ok]
  rw [show l.length - padding + padding = l.length from by omega]
  rw [left_eval l l.length (le_refl _) hlen]
  simp

/-- C1: for every decrypted outer frame whose inner commands are all
well-formed (each `commandSize >= 4`, here `commandSize = payload.length + 4`,
and fully contained before the padding), the receiver enqueues exactly one
message per command - carrying the connection, the little-endian
`commandCode` and a payload view of exactly `commandSize - 4` bytes - in the
order the commands appear in the frame, and no error occurs. -/
theorem C1_inner_command_split (conn : Nat) (hdr pad : List Nat) (cmds : List InnerCommand)
    (hhdr : hdr.length = 8)
    (hwf : ∀ c ∈ cmds, wfCommand c)
    (hmax : (hdr ++ (encodeCommands cmds ++ pad)).length ≤ MAX_PACKET_SIZE) :
    parseFrame conn ⟨hdr ++ (encodeCommands cmds ++ pad), 0⟩
        ((encodeCommands cmds).length + pad.length) (encodeCommands cmds).length
      = (cmds.map (msgOf conn), none) := by
  set L := hdr ++ (encodeCommands cmds ++ pad) with hLdef
  have hlen : L.length = 8 + (encodeCommands cmds).length + pad.length := by
    simp [hLdef, hhdr]
    omega
  unfold parseFrame
  rw [show ((⟨L, 0⟩ : ReadOnlyPacket)).seek 8 = .ok ⟨L, 8⟩ from
    seek_eval L 0 8 (by decide)]
  rw [tryOp_ok]
  have hP : pad.length < U32MOD := by
    have h1 := max_lt_u32
    omega
  have hpadeq : (((encodeCommands cmds).length + pad.length + U32MOD)
      - (encodeCommands cmds).length) % U32MOD = pad.length := by
    rw [show (encodeCommands cmds).length + pad.length + U32MOD
        - (encodeCommands cmds).length = pad.length + U32MOD from by omega,
      Nat.add_mod_right]
    exact Nat.mod_eq_of_lt hP
  simp only []
  rw [hpadeq]
  have hcl : cmds.length ≤ (encodeCommands cmds).length := encodeCommands_length_ge cmds
  have hfuel : (⟨L, 0⟩ : ReadOnlyPacket).data.length + 1
      = (L.length + 1 - cmds.length) + cmds.length := by
    simp only []
    omega
  rw [hfuel]
  rw [show (⟨L, 8⟩ : ReadOnlyPacket) = ⟨L, hdr.length⟩ from by rw [hhdr]]
  rw [hLdef]
  rw [parseLoop_consume conn pad.length cmds hdr pad (L.length + 1 - cmds.length) []
    hwf (by rw [← hLdef]; exact hmax) (le_refl _)]
  rw [← hLdef]
  have hK : L.length + 1 - cmds.length = (L.length - cmds.length) + 1 := by omega
  rw [hK]
  have hpos : hdr.length + (encodeCommands cmds).length = L.length - pad.length := by omega
  rw [hpos]
  rw [parseLoop_done conn L pad.length (L.length - cmds.length) _ (by omega) (by omega)]
  simp

/-- C2: when the parser reaches an inner command header whose `commandSize`
field decodes to a value strictly below 4, parsing of the outer frame stops
with the corrupt-packet socket error and the enqueued messages are exactly
those of the preceding commands — none for the corrupt one. -/
theorem C2_command_size_below_4 (conn : Nat) (hdr : List Nat) (cmds : List InnerCommand)
    (b1 b2 s0 s1 b5 b6 : Nat) (rest : List Nat) (paddedSize realSize : Nat)
    (hhdr : hdr.length = 8)
    (hwf : ∀ c ∈ cmds, wfCommand c)
    (hsz : s0 + 256 * s1 < 4)
    (hmax : (hdr ++ (encodeCommands cmds ++ ([b1, b2, s0, s1, b5, b6] ++ rest))).length
      ≤ MAX_PACKET_SIZE)
    (hps : ((paddedSize + U32MOD) - realSize) % U32MOD < 6 + rest.length) :
    parseFrame conn ⟨hdr ++ (encodeCommands cmds ++ ([b1, b2, s0, s1, b5, b6] ++ rest)), 0⟩
        paddedSize realSize
      = (cmds.map (msgOf conn), some .corruptCommand) := by
  set padding := ((paddedSize + U32MOD) - realSize) % U32MOD with hpaddef
  set suf := [b1, b2, s0, s1, b5, b6] ++ rest with hsufdef
  set L := hdr ++ (encodeCommands cmds ++ suf) with hLdef
  have hsuflen : suf.length = 6 + rest.length := by
    rw [hsufdef]
    simp only [List.length_append, List.length_cons, List.length_nil]
  have hlen : L.length = 8 + (encodeCommands cmds).length + suf.length := by
    simp [hLdef, hhdr]
    omega
  unfold parseFrame
  rw [show ((⟨L, 0⟩ : ReadOnlyPacket)).seek 8 = .ok ⟨L, 8⟩ from
    seek_eval L 0 8 (by decide)]
  rw [tryOp_ok]
  simp only []
  rw [← hpaddef]
  have hcl : cmds.length ≤ (encodeCommands cmds).length := encodeCommands_length_ge cmds
  have hfuel : (⟨L, 0⟩ : ReadOnlyPacket).data.length + 1
      = ((L.length - cmds.length) + 1) + cmds.length := by
    simp only []
    omega
  rw [hfuel]
  rw [show (⟨L, 8⟩ : ReadOnlyPacket) = ⟨L, hdr.length⟩ from by rw [hhdr]]
  rw [hLdef]
  rw [parseLoop_consume conn padding cmds hdr suf ((L.length - cmds.length) + 1) []
    hwf (by rw [← hLdef]; exact hmax) (by omega)]
  rw [← hLdef]
  set n := hdr.length + (encodeCommands cmds).length with hndef
  have hnlen : n + suf.length = L.length := by omega
  rw [parseLoop]
  rw [left_eval L n (by omega) hmax]
  rw [if_pos (by omega), if_neg (by omega)]
  rw [show (⟨L, n⟩ : ReadOnlyPacket).skip 2 = .ok ⟨L, n + 2⟩ from
    skip_eval L n 2 (by omega)]
  simp only [tryOp_ok, ReadOnlyPacket.tell]
  rw [readU16Little_eval L (n + 2) (by omega) hmax]
  simp only [tryOp_ok]
  rw [readU16Little_eval L (n + 2 + 2) (by omega) hmax]
  simp only [tryOp_ok]
  have hb2 : L.getD (n + 2) 0 = s0 := by
    rw [hLdef, show hdr ++ (encodeCommands cmds ++ suf)
        = (hdr ++ encodeCommands cmds) ++ suf from by simp,
      show n + 2 = (hdr ++ encodeCommands cmds).length + 2 from by simp [hndef],
      getD_pre, hsufdef]
    rfl
  have hb3 : L.getD (n + 2 + 1) 0 = s1 := by
    rw [hLdef, show hdr ++ (encodeCommands cmds ++ suf)
        = (hdr ++ encodeCommands cmds) ++ suf from by simp,
      show n + 2 + 1 = (hdr ++ encodeCommands cmds).length + 3 from by simp [hndef],
      getD_pre, hsufdef]
    rfl
  rw [hb2, hb3]
  rw [if_pos (by omega)]
  simp

/-- C1 witness: a frame of two commands (codes 0x0026 and 0x0056, payloads
`[1,2]` and `[3]`) followed by two padding bytes yields exactly the two
messages in order. -/
theorem C1_inner_command_split_witness :
    parseFrame 7 ⟨[0, 0, 0, 0, 0, 0, 0, 0] ++
        (encodeCommands [⟨0, 0, 38, [1, 2]⟩, ⟨9, 9, 86, [3]⟩] ++ [0, 0]), 0⟩
        ((encodeCommands [⟨0, 0, 38, [1, 2]⟩, ⟨9, 9, 86, [3]⟩]).length + 2)
        (encodeCommands [⟨0, 0, 38, [1, 2]⟩, ⟨9, 9, 86, [3]⟩]).length
      = ([⟨7, 38, [1, 2]⟩, ⟨7, 86, [3]⟩], none) := by
  have h := C1_inner_command_split 7 [0, 0, 0, 0, 0, 0, 0, 0] [0, 0]
    [⟨0, 0, 38, [1, 2]⟩, ⟨9, 9, 86, [3]⟩] (by decide) (by decide) (by decide)
  rw [show ([0, 0] : List Nat).length = 2 from rfl] at h
  rw [h]
  decide

/-- C2 witness: a frame holding one good command and then a header whose
`commandSize` field is 3 stops with the corrupt-packet error after enqueueing
only the good command's message. -/
theorem C2_command_size_below_4_witness :
    parseFrame 7 ⟨[0, 0, 0, 0, 0, 0, 0, 0] ++
        (encodeCommands [⟨0, 0, 38, [1, 2]⟩] ++ ([0, 0, 3, 0, 38, 0] ++ [])), 0⟩ 14 14
      = ([⟨7, 38, [1, 2]⟩], some .corruptCommand) := by
  rw [C2_command_size_below_4 7 [0, 0, 0, 0, 0, 0, 0, 0] [⟨0, 0, 38, [1, 2]⟩]
    0 0 3 0 38 0 [] 14 14 (by decide) (by decide) (by decide) (by decide) (by decide)]
  decide

/-! ## C6: cursor operation bounds -/

/-- C6 counterexample: on an empty packet (`size = 0`), `Seek(1)` succeeds
and places the cursor at 1, outside `[0, size]` — the claim says every such
move must fail with the out-of-bounds error. The actual bound checked by
`Seek`/`Skip` is `MAX_PACKET_SIZE`, not `size`. -/
theorem C6_counterexample :
    ReadOnlyPacket.seek ⟨[], 0⟩ 1 = .ok ⟨[], 1⟩ ∧ ([] : List Nat).length < 1 := by
  constructor
  · rfl
  · decide

/-- C6 (amended): `Seek(v)` and `Skip(v)` fail with the packet out-of-bounds
error exactly when the target position (computed in `uint32_t`) would exceed
`MAX_PACKET_SIZE` — the buffer's `size` plays no part — `Rewind(v)` fails
exactly when it would move the cursor below 0, `Rewind()` always resets to 0,
and on success each operation sets the position as requested. -/
theorem C6_cursor_bounds_amended (p : ReadOnlyPacket) (v : Nat)
    (hpos : p.mPosition ≤ MAX_PACKET_SIZE) :
    ((p.seek v).isOk ↔ v ≤ MAX_PACKET_SIZE)
      ∧ (p.seek v = .ok { p with mPosition := v } ∨ p.seek v = .error .outOfBounds)
      ∧ ((p.skip v).isOk ↔ (p.mPosition + v) % U32MOD ≤ MAX_PACKET_SIZE)
      ∧ (p.skip v = .ok { p with mPosition := (p.mPosition + v) % U32MOD }
          ∨ p.skip v = .error .outOfBounds)
      ∧ ((p.rewindBy v).isOk ↔ v ≤ p.mPosition)
      ∧ (p.rewindBy v = .ok { p with mPosition := p.mPosition - v }
          ∨ p.rewindBy v = .error .outOfBounds)
      ∧ p.rewind = { p with mPosition := 0 } := by
  have hm := max_lt_u32
  refine ⟨?_, ?_, ?_, ?_, ?_, ?_, rfl⟩
  · unfold ReadOnlyPacket.seek
    split
    · simp only [Except.isOk, Except.toBool]
      constructor
      · intro h; cases h
      · omega
    · simp only [Except.isOk, Except.toBool]
      constructor
      · intro _; omega
      · intro _; trivial
  · unfold ReadOnlyPacket.seek
    split
    · right; rfl
    · left; rfl
  · unfold ReadOnlyPacket.skip
    rcases Nat.eq_zero_or_pos v with h0 | h0
    · subst h0
      rw [if_pos rfl]
      simp only [Except.isOk, Except.toBool]
      have : (p.mPosition + 0) % U32MOD = p.mPosition := Nat.mod_eq_of_lt (by omega)
      rw [this]
      simp only [true_iff]
      omega
    · rw [if_neg (by omega)]
      split
      · simp only [Except.isOk, Except.toBool]
        constructor
        · intro h; cases h
        · omega
      · simp only [Except.isOk, Except.toBool]
        constructor
        · intro _; omega
        · intro _; trivial
  · unfold ReadOnlyPacket.skip
    rcases Nat.eq_zero_or_pos v with h0 | h0
    · subst h0
      rw [if_pos rfl]
      left
      have : (p.mPosition + 0) % U32MOD = p.mPosition := Nat.mod_eq_of_lt (by omega)
      rw [this]
    · rw [if_neg (by omega)]
      split
      · right; rfl
      · left; rfl
  · unfold ReadOnlyPacket.rewindBy
    rcases Nat.eq_zero_or_pos v with h0 | h0
    · subst h0
      rw [if_pos rfl]
      simp [Except.isOk, Except.toBool]
    · rw [if_neg (by omega)]
      split
      · simp only [Except.isOk, Except.toBool]
        constructor
        · intro h; cases h
        · omega
      · simp only [Except.isOk, Except.toBool]
        constructor
        · intro _; omega
        · intro _; trivial
  · unfold ReadOnlyPacket.rewindBy
    rcases Nat.eq_zero_or_pos v with h0 | h0
    · subst h0
      rw [if_pos rfl]
      left
      rw [show p.mPosition - 0 = p.mPosition from rfl]
    · rw [if_neg (by omega)]
      split
      · right; rfl
      · left; rfl

/-- C6 witness: the amended bound characterization at a concrete packet
(`size = 3`, cursor 1) and offset 2. -/
theorem C6_cursor_bounds_witness :
    (⟨[1, 2, 3], 1⟩ : ReadOnlyPacket).mPosition ≤ MAX_PACKET_SIZE ∧
      ((ReadOnlyPacket.seek ⟨[1, 2, 3], 1⟩ 2).isOk ↔ 2 ≤ MAX_PACKET_SIZE) :=
  ⟨by decide, (C6_cursor_bounds_amended ⟨[1, 2, 3], 1⟩ 2 (by decide)).1⟩

/-! ## Handshake completion (`EncryptedConnection` DH state machine) -/

/-- Connection status values (`TcpConnection::ConnectionStatus_t`). -/
inductive ConnStatus where
  | notConnected
  | connecting
  | encrypting
  | waitingEncryption
  | encrypted
deriving DecidableEq, Repr

/-- The packet-parser member function pointer `mPacketParser` as a sum type:
which parse routine handles the next packet (`none` after a socket error). -/
inductive ParserState where
  | idle
  | clientStart
  | serverStart
  | serverFinish
  | framed
deriving DecidableEq, Repr

/-- The connection state touched by the handshake-completion code: status,
parser pointer and the negotiated Blowfish key (`SetEncryptionKey`). -/
structure ConnState where
  status : ConnStatus
  parser : ParserState
  encryptionKey : Option (List Nat)
deriving DecidableEq, Repr

/-- Modelled from the spec: `TcpConnection::SocketError` (not under `src/`)
transitions the connection to not-connected, and
`EncryptedConnection::SocketError` additionally drops the packet parser. -/
def socketError (st : ConnState) : ConnState :=
  { st with status := .notConnected, parser := .idle }

/-- `DH_BASE_STRING` is the single ASCII character `2` (spec §4.B: the DH
base is exactly that string); its definition (`Constants.h`) is not under
`src/`. -/
def DH_BASE_STRING : List Nat := [50]

/-- Modelled from the spec: the negotiated Blowfish session key is 8 bytes
(§3, "a negotiated Blowfish session key (8 bytes)"); the constant's
definition is not under `src/`. -/
def BF_NET_KEY_BYTE_SIZE : Nat := 8

/-- Modelled from the spec: the fixed hex-digit length of the DH prime and
public values; its definition (`Constants.h`) is not under `src/`, and the
claims do not depend on the exact value. -/
def DH_KEY_HEX_SIZE : Nat := 256

/-- The OpenSSL Diffie-Hellman primitives used by the handshake
(`GenerateDiffieHellmanSharedData` etc. are not under `src/`): an oracle
mapping the prime and the peer's public hex string to the derived shared
data. -/
structure DHOracle where
  derive : List Nat → List Nat → List Nat

/-- Case analysis on the optional result of the handshake validation:
`err` when a check failed, `k` with the prime and server public otherwise. -/
def onSome (res : Option (List Nat × List Nat)) (err : ConnState)
    (k : List Nat → List Nat → ConnState) : ConnState :=
  match res with
  | none => err
  | some pr => k pr.1 pr.2

@[simp] theorem onSome_none (err : ConnState) (k : List Nat → List Nat → ConnState) :
    onSome none err k = err := rfl

@[simp] theorem onSome_some (pr : List Nat × List Nat) (err : ConnState)
    (k : List Nat → List Nat → ConnState) : onSome (some pr) err k = k pr.1 pr.2 := rfl

/-- The sequential reads and checks of
`EncryptedConnection::ParseClientEncryptionStart` before the shared-data
derivation (`EncryptedConnection.cpp`, lines 250-301): returns the prime and
server public when every check passes, `none` when a check fails (the
`status = false` paths), and an error when a read throws. -/
def clientStartRead (packet : ReadOnlyPacket) :
    Except PacketError (Option (List Nat × List Nat)) := do
  let (v0, p1) ← packet.readU32Big
  if v0 ≠ 0 then return none
  let sz1 ← p1.peekU32Big
  if sz1 ≠ DH_BASE_STRING.length then return none
  let (base, p2) ← p1.readString32Big
  if base ≠ DH_BASE_STRING then return none
  let sz2 ← p2.peekU32Big
  if sz2 ≠ DH_KEY_HEX_SIZE then return none
  let (prime, p3) ← p2.readString32Big
  let sz3 ← p3.peekU32Big
  if sz3 ≠ DH_KEY_HEX_SIZE then return none
  let (serverPublic, p4) ← p3.readString32Big
  if p4.left ≠ 0 then return none
  return some (prime, serverPublic)

/-- The number of bytes `ParseClientEncryptionStart` waits for:
`strlen(DH_BASE_STRING) + 2 * DH_KEY_HEX_SIZE + 4 * sizeof(uint32_t)`. -/
def clientStartNeeded : Nat := DH_BASE_STRING.length + 2 * DH_KEY_HEX_SIZE + 16

/-- `EncryptedConnection::ParseClientEncryptionStart`
(`EncryptedConnection.cpp`, lines 239-352): with too little data the state is
unchanged (more data is requested); a failed check or a packet exception ends
in `SocketError`; otherwise the status first becomes waiting-encryption, the
shared data is derived, and its length decides between `SocketError` and
(key set, status encrypted, parser `ParsePacket`). -/
def parseClientEncryptionStart (orc : DHOracle) (st : ConnState)
    (packet : ReadOnlyPacket) : ConnState :=
  if packet.data.length < clientStartNeeded then st
  else
    tryOp (clientStartRead packet) (socketError st) fun res =>
      onSome res (socketError st) fun prime serverPublic =>
        let st1 := { st with status := .waitingEncryption }
        let sharedData := orc.derive prime serverPublic
        if sharedData.length ≠ BF_NET_KEY_BYTE_SIZE then socketError st1
        else { st1 with
          encryptionKey := some sharedData, status := .encrypted, parser := .framed }

/-- `EncryptedConnection::ParseServerEncryptionFinish`
(`EncryptedConnection.cpp`, lines 410-468): once the length-prefixed client
public is fully buffered and no longer than `DH_KEY_HEX_SIZE`, with no
leftover bytes, the shared data is derived from it and its length decides
between `SocketError` and (key set, status encrypted, parser `ParsePacket`).
`dhPrime` stands for the connection's `mDiffieHellman` parameters. -/
def parseServerEncryptionFinish (orc : DHOracle) (dhPrime : List Nat)
    (st : ConnState) (packet : ReadOnlyPacket) : ConnState :=
  if packet.data.length < 4 then st
  else
    tryOp packet.peekU32Big (socketError st) fun sz =>
      if (4 + sz) % U32MOD > packet.data.length then st
      else if DH_KEY_HEX_SIZE < sz then socketError st
      else
        tryOp packet.readString32Big (socketError st) fun r =>
          let clientPublic := r.1
          if r.2.left ≠ 0 then socketError st
          else
            let sharedData := orc.derive dhPrime clientPublic
            if sharedData.length ≠ BF_NET_KEY_BYTE_SIZE then socketError st
            else { st with
              encryptionKey := some sharedData, status := .encrypted, parser := .framed }

/-- C3: at every shared-secret derivation point of the handshake — client
role after fully validating the server parameters, server role after fully
reading the client public — a derived shared data of length exactly
`BF_NET_KEY_BYTE_SIZE` sets the encryption key and moves the connection to
the encrypted status (parser `ParsePacket`); any other length drops the
connection via `SocketError` (status not-connected, parser cleared, key
unchanged). -/
theorem C3_dh_shared_data_length (orc : DHOracle) (st : ConnState)
    (pc ps : ReadOnlyPacket) (prime serverPublic dhPrime clientPublic : List Nat)
    (szc : Nat) (p1 : ReadOnlyPacket)
    (hclen : ¬ pc.data.length < clientStartNeeded)
    (hcread : clientStartRead pc = .ok (some (prime, serverPublic)))
    (hslen : ¬ ps.data.length < 4)
    (hspeek : ps.peekU32Big = .ok szc)
    (hsfit : ¬ (4 + szc) % U32MOD > ps.data.length)
    (hsmax : ¬ DH_KEY_HEX_SIZE < szc)
    (hsread : ps.readString32Big = .ok (clientPublic, p1))
    (hsleft : p1.left = 0) :
    ((orc.derive prime serverPublic).length = BF_NET_KEY_BYTE_SIZE →
        parseClientEncryptionStart orc st pc
          = ⟨.encrypted, .framed, some (orc.derive prime serverPublic)⟩)
    ∧ ((orc.derive prime serverPublic).length ≠ BF_NET_KEY_BYTE_SIZE →
        parseClientEncryptionStart orc st pc
          = ⟨.notConnected, .idle, st.encryptionKey⟩)
    ∧ ((orc.derive dhPrime clientPublic).length = BF_NET_KEY_BYTE_SIZE →
        parseServerEncryptionFinish orc dhPrime st ps
          = ⟨.encrypted, .framed, some (orc.derive dhPrime clientPublic)⟩)
    ∧ ((orc.derive dhPrime clientPublic).length ≠ BF_NET_KEY_BYTE_SIZE →
        parseServerEncryptionFinish orc dhPrime st ps
          = ⟨.notConnected, .idle, st.encryptionKey⟩) := by
  refine ⟨?_, ?_, ?_, ?_⟩ <;> intro h
  · unfold parseClientEncryptionStart
    rw [if_neg hclen, hcread, tryOp_ok, onSome_some]
    simp only []
    rw [if_neg (by simp [h])]
  · unfold parseClientEncryptionStart
    rw [if_neg hclen, hcread, tryOp_ok, onSome_some]
    simp only []
    rw [if_pos (by simp [h])]
    rfl
  · unfold parseServerEncryptionFinish
    rw [if_neg hslen, hspeek, tryOp_ok, if_neg hsfit, if_neg hsmax, hsread, tryOp_ok]
    simp only []
    rw [if_neg (by simp [hsleft]), if_neg (by simp [h])]
  · unfold parseServerEncryptionFinish
    rw [if_neg hslen, hspeek, tryOp_ok, if_neg hsfit, if_neg hsmax, hsread, tryOp_ok]
    simp only []
    rw [if_neg (by simp [hsleft]), if_pos (by simp [h])]
    rfl

/-- A well-formed server-parameters packet for the C3 witness: reserved
zeros, the base `2`, a 256-hex-digit prime and a 256-hex-digit server
public, each length-prefixed big-endian. -/
def c3ClientPacket : ReadOnlyPacket :=
  ⟨[0, 0, 0, 0] ++ ([0, 0, 0, 1] ++ [50]) ++ ([0, 0, 1, 0] ++ List.replicate 256 48) ++
    ([0, 0, 1, 0] ++ List.replicate 256 49), 0⟩

/-- A well-formed client-public packet for the C3 witness. -/
def c3ServerPacket : ReadOnlyPacket :=
  ⟨[0, 0, 1, 0] ++ List.replicate 256 49, 0⟩

set_option maxRecDepth 8192 in
/-- C3 witness: with an oracle deriving an 8-byte shared secret, both roles
finish the handshake encrypted with that key on concrete packets. -/
theorem C3_dh_shared_data_length_witness :
    parseClientEncryptionStart ⟨fun _ _ => [1, 2, 3, 4, 5, 6, 7, 8]⟩
        ⟨.waitingEncryption, .clientStart, none⟩ c3ClientPacket
      = ⟨.encrypted, .framed, some [1, 2, 3, 4, 5, 6, 7, 8]⟩
    ∧ parseServerEncryptionFinish ⟨fun _ _ => [1, 2, 3, 4, 5, 6, 7, 8]⟩
        (List.replicate 256 48) ⟨.waitingEncryption, .serverFinish, none⟩ c3ServerPacket
      = ⟨.encrypted, .framed, some [1, 2, 3, 4, 5, 6, 7, 8]⟩ := by
  have h := C3_dh_shared_data_length ⟨fun _ _ => [1, 2, 3, 4, 5, 6, 7, 8]⟩
    ⟨.waitingEncryption, .clientStart, none⟩ c3ClientPacket c3ServerPacket
    (List.replicate 256 48) (List.replicate 256 49) (List.replicate 256 48)
    (List.replicate 256 49) 256 ⟨c3ServerPacket.data, 260⟩
    (by decide) (by rfl) (by decide) (by rfl) (by decide) (by decide)
    (by rfl) (by rfl)
  exact ⟨h.1 (by rfl), h.2.2.1 (by rfl)⟩

/-! ## Explicit updates and operational change sets (`DatabaseMariaDB`) -/

/-- A bound column value (`DatabaseBind`), opaque to the claims. -/
abbrev DBVal := Nat

/-- One row of a table: the `UID` primary key and the other columns. -/
structure Row where
  uid : Nat
  cols : List (String × DBVal)
deriving DecidableEq, Repr

/-- Look a column up in an association list (`std::unordered_map::find`). -/
def lookupCol (cols : List (String × DBVal)) (c : String) : Option DBVal :=
  (cols.find? (fun p => p.1 = c)).map (fun p => p.2)

/-- `DBExplicitUpdate`: the record's UID, the map of expected column values
and the map of new values. -/
structure DBExplicitUpdate where
  uid : Nat
  expected : List (String × DBVal)
  changes : List (String × DBVal)
deriving DecidableEq, Repr

/-- The `WHERE` clause built by `DatabaseMariaDB::ProcessExplicitUpdate`
(`UPDATE t SET <new> WHERE UID = :u AND <expected over the changed
columns>`), as a row predicate per SQL semantics: the UID matches and every
changed column holds its expected value. -/
def rowMatches (upd : DBExplicitUpdate) (r : Row) : Bool :=
  r.uid = upd.uid &&
    upd.changes.all (fun cv => lookupCol r.cols cv.1 = lookupCol upd.expected cv.1)

/-- Apply the `SET` list of an update to one row. -/
def applyChanges (r : Row) (changes : List (String × DBVal)) : Row :=
  { r with cols := r.cols.map (fun p =>
      match lookupCol changes p.1 with
      | some v => (p.1, v)
      | none => p) }

/-- `DatabaseMariaDB::ProcessExplicitUpdate` (`DatabaseMariaDB.cpp`, lines
1045-1139): fails on an empty change list; fails before any SQL executes
when a changed column has no expected value; otherwise executes the UPDATE
(whose WHERE clause is `rowMatches`) on the transaction's view `db` and
succeeds iff the affected row count is exactly 1. -/
def processExplicitUpdate (db : List Row) (upd : DBExplicitUpdate) : Option (List Row) :=
  if upd.changes.isEmpty then none
  else if upd.changes.any (fun cv => (lookupCol upd.expected cv.1).isNone) then none
  else
    let affected := (db.filter (fun r => rowMatches upd r)).length
    let db' := db.map (fun r => if rowMatches upd r then applyChanges r upd.changes else r)
    if affected = 1 then some db' else none

/-- One operation of a `DBOperationalChangeSet`
(`DBOperationalChange::DBOperationType`). `insert`, `update` and `delete`
mirror `InsertSingleObject` / `UpdateSingleObject` / `DeleteSingleObject` in
outline (their details do not bear on the claims): a plain UPDATE or DELETE
succeeds regardless of how many rows matched. -/
inductive DBOp where
  | insert (r : Row)
  | update (uid : Nat) (changes : List (String × DBVal))
  | delete (uid : Nat)
  | explicit (upd : DBExplicitUpdate)
deriving DecidableEq, Repr

/-- Apply one operation to the transaction's view of the table. -/
def applyOp (db : List Row) : DBOp → Option (List Row)
  | .insert r => some (db ++ [r])
  | .update uid changes =>
    some (db.map (fun r => if r.uid = uid then applyChanges r changes else r))
  | .delete uid => some (db.filter (fun r => ¬ r.uid = uid))
  | .explicit upd => processExplicitUpdate db upd

/-- The operation loop of `DatabaseMariaDB::ProcessOperationalChangeSet`
(`DatabaseMariaDB.cpp`, lines 963-987): operations run in order on the
transaction and the loop breaks at the first failure. -/
def runOps (db : List Row) : List DBOp → Option (List Row)
  | [] => some db
  | op :: rest => (applyOp db op).bind (fun db2 => runOps db2 rest)

/-- `DatabaseMariaDB::ProcessOperationalChangeSet` (`DatabaseMariaDB.cpp`,
lines 942-1043): autocommit off, run the operations, then `mysql_commit` on
success or `mysql_rollback` on failure (the rollback restores the database
as it was before the change set). Returns the success flag and the resulting
on-disk table. -/
def processOperationalChangeSet (db : List Row) (ops : List DBOp) : Bool × List Row :=
  ((runOps db ops).isSome, (runOps db ops).getD db)

theorem list_any_congr {α : Type} (l : List α) (f g : α → Bool)
    (h : ∀ x ∈ l, f x = g x) : l.any f = l.any g := by
  induction l with
  | nil => rfl
  | cons a t ih =>
    simp only [List.any_cons]
    rw [h a (List.mem_cons_self a t), ih (fun x hx => h x (List.mem_cons_of_mem a hx))]

theorem list_all_congr {α : Type} (l : List α) (f g : α → Bool)
    (h : ∀ x ∈ l, f x = g x) : l.all f = l.all g := by
  induction l with
  | nil => rfl
  | cons a t ih =>
    simp only [List.all_cons]
    rw [h a (List.mem_cons_self a t), ih (fun x hx => h x (List.mem_cons_of_mem a hx))]

theorem runOps_append (db : List Row) (l1 l2 : List DBOp) :
    runOps db (l1 ++ l2) = (runOps db l1).bind (fun mid => runOps mid l2) := by
  induction l1 generalizing db with
  | nil => simp [runOps]
  | cons op rest ih =>
    simp only [List.cons_append, runOps]
    cases applyOp db op with
    | none => rfl
    | some db2 => simpa using ih db2

/-- C4: for a well-formed explicit update inside an operational change set,
the executed UPDATE affects exactly the rows whose UID equals the record's
UID and whose changed columns hold the expected values (the WHERE clause),
the operation succeeds iff that affected row count is exactly 1, and any
failing explicit update — a non-1 count or an expected set missing a changed
column — makes the whole change set return failure with the database rolled
back to its initial state. -/
theorem C4_explicit_update_transaction (db cur : List Row) (pre post : List DBOp)
    (upd : DBExplicitUpdate)
    (hpre : runOps db pre = some cur) :
    ((upd.changes ≠ [] ∧ ∀ cv ∈ upd.changes, (lookupCol upd.expected cv.1).isSome) →
      ((∀ r : Row, rowMatches upd r = true ↔
          (r.uid = upd.uid ∧
            ∀ cv ∈ upd.changes, lookupCol r.cols cv.1 = lookupCol upd.expected cv.1))
        ∧ ((processExplicitUpdate cur upd).isSome ↔
            (cur.filter (fun r => rowMatches upd r)).length = 1)))
    ∧ (processExplicitUpdate cur upd = none →
        processOperationalChangeSet db (pre ++ DBOp.explicit upd :: post) = (false, db)) := by
  constructor
  · rintro ⟨hne, hexp⟩
    constructor
    · intro r
      simp [rowMatches, List.all_eq_true]
    · unfold processExplicitUpdate
      rw [if_neg (by simp [List.isEmpty_iff, hne])]
      rw [if_neg (by
        simp only [List.any_eq_true, not_exists, not_and]
        intro cv hcv
        have := hexp cv hcv
        simp only [Option.isNone_iff_eq_none]
        intro hnone
        rw [hnone] at this
        simp at this)]
      simp only []
      split
      · simp only [Option.isSome_some, true_iff]
        assumption
      · simp only [Option.isSome_none, Bool.false_eq_true, false_iff]
        assumption
  · intro hfail
    unfold processOperationalChangeSet
    rw [runOps_append, hpre]
    simp [runOps, applyOp, hfail]

/-- C10: the WHERE clause of an explicit update is built only from the
expected values of the columns being changed — a changed column without an
expected value fails the operation before any SQL is executed (independently
of the database contents), and an expected value supplied for a column that
is not changed is never checked (any expected set agreeing on the changed
columns yields the identical operation). -/
theorem C10_where_from_changed_columns (db : List Row) (upd : DBExplicitUpdate)
    (expected' : List (String × DBVal)) :
    ((∃ cv ∈ upd.changes, lookupCol upd.expected cv.1 = none) →
        ∀ db2 : List Row, processExplicitUpdate db2 upd = none)
    ∧ ((∀ cv ∈ upd.changes, lookupCol expected' cv.1 = lookupCol upd.expected cv.1) →
        processExplicitUpdate db { upd with expected := expected' }
          = processExplicitUpdate db upd) := by
  constructor
  · rintro ⟨cv, hmem, hnone⟩ db2
    unfold processExplicitUpdate
    rcases h0 : upd.changes.isEmpty with _ | _
    · rw [if_neg (by simp [h0])]
      rw [if_pos (by
        simp only [List.any_eq_true]
        exact ⟨cv, hmem, by simp [hnone]⟩)]
    · rw [if_pos (by simp [h0])]
  · intro hagree
    unfold processExplicitUpdate
    simp only []
    rw [list_any_congr upd.changes
      (fun cv => (lookupCol expected' cv.1).isNone)
      (fun cv => (lookupCol upd.expected cv.1).isNone)
      (fun cv hcv => by simp only [hagree cv hcv])]
    have hrm : ∀ r : Row, rowMatches { upd with expected := expected' } r = rowMatches upd r := by
      intro r
      unfold rowMatches
      simp only []
      rw [list_all_congr upd.changes
        (fun cv => decide (lookupCol r.cols cv.1 = lookupCol expected' cv.1))
        (fun cv => decide (lookupCol r.cols cv.1 = lookupCol upd.expected cv.1))
        (fun cv hcv => by simp only [hagree cv hcv])]
    simp only [hrm]

/-- C4 witness: on a one-row table, the explicit update with matching
expected value succeeds iff exactly one row matches, and an explicit update
whose expected value mismatches rolls the change set back to the initial
table. -/
theorem C4_explicit_update_transaction_witness :
    ((processExplicitUpdate [⟨1, [("Hp", 100)]⟩] ⟨1, [("Hp", 100)], [("Hp", 80)]⟩).isSome
      ↔ (([⟨1, [("Hp", 100)]⟩] : List Row).filter
          (fun r => rowMatches ⟨1, [("Hp", 100)], [("Hp", 80)]⟩ r)).length = 1) ∧
    processOperationalChangeSet [⟨1, [("Hp", 100)]⟩]
        ([] ++ DBOp.explicit ⟨1, [("Hp", 50)], [("Hp", 80)]⟩ :: [])
      = (false, [⟨1, [("Hp", 100)]⟩]) :=
  ⟨((C4_explicit_update_transaction [⟨1, [("Hp", 100)]⟩] [⟨1, [("Hp", 100)]⟩] [] []
      ⟨1, [("Hp", 100)], [("Hp", 80)]⟩ rfl).1 (by decide)).2,
   (C4_explicit_update_transaction [⟨1, [("Hp", 100)]⟩] [⟨1, [("Hp", 100)]⟩] [] []
      ⟨1, [("Hp", 50)], [("Hp", 80)]⟩ rfl).2 (by decide)⟩

/-- C10 witness: an expected value for an unchanged column (`Mp`) does not
alter the operation, and a changed column with no expected value fails on
any database. -/
theorem C10_where_from_changed_columns_witness :
    (processExplicitUpdate [⟨1, [("Hp", 100)]⟩]
        ⟨1, [("Mp", 5), ("Hp", 100)], [("Hp", 80)]⟩
      = processExplicitUpdate [⟨1, [("Hp", 100)]⟩] ⟨1, [("Hp", 100)], [("Hp", 80)]⟩) ∧
    processExplicitUpdate [] ⟨1, [], [("Hp", 80)]⟩ = none :=
  ⟨(C10_where_from_changed_columns [⟨1, [("Hp", 100)]⟩] ⟨1, [("Hp", 100)], [("Hp", 80)]⟩
      [("Mp", 5), ("Hp", 100)]).2 (by decide),
   (C10_where_from_changed_columns [] ⟨1, [], [("Hp", 80)]⟩ []).1 (by decide) []⟩

/-! ## Identity cache (`PersistentObject`) -/

/-- One entry of `sCached` (`std::weak_ptr<PersistentObject>`): live with the
object's identity, or expired (`lock()` returns null). -/
inductive CacheEntry where
  | live (objId : Nat)
  | expired
deriving DecidableEq, Repr

/-- The `UUID → weak(object)` identity cache `PersistentObject::sCached`,
keyed by `UUID::ToString()`. -/
abbrev Cache := List (String × CacheEntry)

/-- `std::unordered_map::find`. -/
def lookupEntry (cache : Cache) (u : String) : Option CacheEntry :=
  (cache.find? (fun p => p.1 = u)).map (fun p => p.2)

/-- `std::unordered_map::erase` by key. -/
def eraseEntry (cache : Cache) (u : String) : Cache :=
  cache.filter (fun p => ¬ p.1 = u)

/-- `sCached[u] = self`: overwrite or insert. -/
def insertEntry (cache : Cache) (u : String) (e : CacheEntry) : Cache :=
  if (cache.find? (fun p => p.1 = u)).isSome then
    cache.map (fun p => if p.1 = u then (u, e) else p)
  else cache ++ [(u, e)]

/-- The state of one `PersistentObject` seen by `Register`: its identity (for
`weak_ptr::lock() == self` comparisons), its `mUUID` (`none` = null UUID) and
its `mDeleted` flag. -/
structure PObj where
  objId : Nat
  mUUID : Option String
  deleted : Bool
deriving DecidableEq, Repr

/-- Does this cache entry hold a live pointer to the given object
(`it->second.lock() == self`)? -/
def isLiveAs (e : Option CacheEntry) (objId : Nat) : Bool :=
  match e with
  | some (.live oid) => oid = objId
  | _ => false

@[simp] theorem isLiveAs_none (objId : Nat) : isLiveAs none objId = false := rfl

@[simp] theorem isLiveAs_expired (objId : Nat) :
    isLiveAs (some .expired) objId = false := rfl

@[simp] theorem isLiveAs_live (oid objId : Nat) :
    isLiveAs (some (.live oid)) objId = (oid = objId : Bool) := rfl

/-- `PersistentObject::Register(self, pUuid)` (`PersistentObject.cpp`, lines
107-149).  `freshUuid` stands for `UUID::Random()` on the randomize path.
Returns the C++ return value, the cache after the call and the object with
its (possibly reassigned) `mUUID`. -/
def registerObject (cache : Cache) (self : PObj) (pUuid : Option String)
    (freshUuid : String) : Bool × Cache × PObj :=
  if self.deleted then (false, cache, self)
  else
    -- unregister the old UUID when both pUuid and mUUID are non-null and
    -- the cached entry is this very object
    let cache1 :=
      if pUuid.isSome && self.mUUID.isSome &&
          isLiveAs (lookupEntry cache (self.mUUID.getD "")) self.objId then
        eraseEntry cache (self.mUUID.getD "")
      else cache
    -- `uuid = pUuid` when given, else keep `mUUID`, else `UUID::Random()`
    let uuid := pUuid.getD (self.mUUID.getD freshUuid)
    let registered := (pUuid.isNone && self.mUUID.isNone)
      || (lookupEntry cache1 uuid).isNone
    if registered then
      (true, insertEntry cache1 uuid (.live self.objId), { self with mUUID := some uuid })
    else
      (false, cache1, { self with mUUID := some uuid })

/-- `PersistentObject::GetObjectByUUID` (`PersistentObject.cpp`, lines
164-174): the cached instance when the entry is live, null otherwise.  A null
UUID stringifies to the all-zero form. -/
def uuidToString (u : Option String) : String :=
  match u with
  | none => "00000000-0000-0000-0000-000000000000"
  | some s => s

/-- `weak_ptr::lock()` on a cache entry, as the live object's identity. -/
def liveId : CacheEntry → Option Nat
  | .live objId => some objId
  | .expired => none

/-- `PersistentObject::GetObjectByUUID`. -/
def getObjectByUUID (cache : Cache) (u : Option String) : Option Nat :=
  (lookupEntry cache (uuidToString u)).bind liveId

theorem lookupEntry_erase_ne (cache : Cache) (u v : String) (h : ¬ u = v) :
    lookupEntry (eraseEntry cache u) v = lookupEntry cache v := by
  induction cache with
  | nil => rfl
  | cons p t ih =>
    unfold eraseEntry at ih ⊢
    rw [List.filter_cons]
    by_cases hp : p.1 = u
    · rw [if_neg (by simp [hp])]
      rw [ih]
      unfold lookupEntry
      rw [List.find?_cons_of_neg _ (by simp [hp, h])]
    · rw [if_pos (by simp [hp])]
      unfold lookupEntry at ih ⊢
      by_cases hv : p.1 = v
      · rw [List.find?_cons_of_pos _ (by simp [hv]), List.find?_cons_of_pos _ (by simp [hv])]
      · rw [List.find?_cons_of_neg _ (by simp [hv]), List.find?_cons_of_neg _ (by simp [hv])]
        exact ih

theorem lookupEntry_none_iff (cache : Cache) (u : String) :
    lookupEntry cache u = none ↔ u ∉ cache.map Prod.fst := by
  unfold lookupEntry
  rw [Option.map_eq_none', List.find?_eq_none]
  constructor
  · intro h hmem
    obtain ⟨p, hp, hfst⟩ := List.mem_map.mp hmem
    exact (by simpa using h p hp : ¬ p.1 = u) hfst
  · intro h p hp
    simp only [decide_eq_true_eq]
    exact fun hfst => h (List.mem_map.mpr ⟨p, hp, hfst⟩)

theorem keys_insertEntry_nodup (cache : Cache) (u : String) (e : CacheEntry)
    (h : (cache.map Prod.fst).Nodup) :
    ((insertEntry cache u e).map Prod.fst).Nodup := by
  unfold insertEntry
  split
  · have : (cache.map (fun p => if p.1 = u then (u, e) else p)).map Prod.fst
        = cache.map Prod.fst := by
      rw [List.map_map]
      refine List.map_congr_left ?_
      intro p _
      simp only [Function.comp]
      split
      · simp [*]
      · rfl
    rw [this]
    exact h
  · rename_i hfind
    have hnone : lookupEntry cache u = none := by
      unfold lookupEntry
      rw [Option.map_eq_none', ← Option.not_isSome_iff_eq_none]
      simpa using hfind
    have hnotmem : u ∉ cache.map Prod.fst := (lookupEntry_none_iff cache u).mp hnone
    rw [List.map_append, List.nodup_append]
    refine ⟨h, by simp, ?_⟩
    intro a ha
    simp only [List.map_cons, List.map_nil, List.mem_singleton]
    intro hb
    subst hb
    exact hnotmem ha

theorem keys_eraseEntry_nodup (cache : Cache) (u : String)
    (h : (cache.map Prod.fst).Nodup) :
    ((eraseEntry cache u).map Prod.fst).Nodup := by
  unfold eraseEntry
  exact h.sublist (List.Sublist.map Prod.fst (List.filter_sublist cache))


/-- C5 counterexample: the cache maps UUID `A` to live object 1 and UUID
`B` to a different live object 2; `Register(object 1, pUuid = B)` returns
false as the claim says, but the cache is NOT left unchanged: the object's
old entry under `A` has been erased. -/
theorem C5_counterexample :
    (registerObject [("A", .live 1), ("B", .live 2)] ⟨1, some "A", false⟩ (some "B") "F").1
      = false
    ∧ getObjectByUUID [("A", .live 1), ("B", .live 2)] (some "B") = some 2
    ∧ (registerObject [("A", .live 1), ("B", .live 2)] ⟨1, some "A", false⟩ (some "B") "F").2.1
      ≠ [("A", .live 1), ("B", .live 2)] := by decide

/-- C5 (amended): `Register` on an object whose target UUID (the explicit
`pUuid` when given, otherwise the object's own non-null UUID) already maps
to a different cached instance returns false, and the cache is unchanged
except that, when an explicit UUID is supplied and the object itself was
live-cached under its previous UUID, that previous entry is removed; a call
to `Register` preserves at-most-one-entry-per-UUID; and `GetObjectByUUID`
returns the unique cached instance when one is live. -/
theorem C5_identity_cache_amended (cache : Cache) (self : PObj) (pUuid : Option String)
    (fresh tgt : String) (e : CacheEntry) (oid : Nat) :
    ((self.deleted = false) →
      (pUuid = some tgt ∨ (pUuid = none ∧ self.mUUID = some tgt)) →
      lookupEntry cache tgt = some e →
      isLiveAs (some e) self.objId = false →
      ((registerObject cache self pUuid fresh).1 = false
        ∧ ((registerObject cache self pUuid fresh).2.1 = cache
          ∨ ∃ u0, self.mUUID = some u0 ∧ pUuid.isSome = true
              ∧ isLiveAs (lookupEntry cache u0) self.objId = true
              ∧ (registerObject cache self pUuid fresh).2.1 = eraseEntry cache u0)))
    ∧ ((cache.map Prod.fst).Nodup →
        (((registerObject cache self pUuid fresh).2.1).map Prod.fst).Nodup)
    ∧ (lookupEntry cache tgt = some (.live oid) →
        getObjectByUUID cache (some tgt) = some oid) := by
  refine ⟨?_, ?_, ?_⟩
  · intro hdel htgt hent hns
    unfold registerObject
    rw [if_neg (by simp [hdel])]
    simp only []
    rcases htgt with htgt | ⟨hpn, hmu⟩
    · subst htgt
      simp only [Option.getD_some, Option.isSome_some, Option.isNone_some,
        Bool.true_and, Bool.false_and, Bool.false_or]
      cases hmu : self.mUUID with
      | none =>
        simp only [hmu, Option.isSome_none, Bool.false_and]
        rw [if_neg (by
          rw [if_neg (show ¬ (false : Bool) = true by simp)]
          rw [hent]
          simp)]
        exact ⟨rfl, Or.inl
          (if_neg (show ¬ (false : Bool) = true by decide) :
            (if (false : Bool) = true
              then eraseEntry cache (Option.getD none "") else cache) = cache)⟩
      | some u0 =>
        simp only [hmu, Option.isSome_some, Bool.true_and, Option.getD_some]
        by_cases hlive : isLiveAs (lookupEntry cache u0) self.objId = true
        · have hne : ¬ u0 = tgt := by
            intro hEq
            rw [hEq, hent] at hlive
            rw [hns] at hlive
            exact Bool.false_ne_true hlive
          rw [if_pos hlive]
          rw [if_neg (by
            rw [lookupEntry_erase_ne cache u0 tgt hne, hent]
            simp)]
          exact ⟨rfl, Or.inr ⟨u0, rfl, trivial, hlive, rfl⟩⟩
        · rw [if_neg hlive]
          rw [if_neg (by rw [hent]; simp)]
          exact ⟨rfl, Or.inl rfl⟩
    · subst hpn
      rw [hmu]
      simp only [Option.isSome_none, Bool.false_and, Option.getD_some, Option.getD_none,
        Option.isNone_none, Option.isNone_some, Bool.true_and, Bool.false_or]
      rw [if_neg (by
        rw [if_neg (show ¬ (false : Bool) = true by simp)]
        rw [hent]
        simp)]
      exact ⟨rfl, Or.inl
        (if_neg (show ¬ (false : Bool) = true by decide) :
          (if (false : Bool) = true then eraseEntry cache tgt else cache) = cache)⟩
  · intro hnd
    unfold registerObject
    split
    · exact hnd
    · simp only []
      set cache1 := (if pUuid.isSome && self.mUUID.isSome &&
          isLiveAs (lookupEntry cache (self.mUUID.getD "")) self.objId then
            eraseEntry cache (self.mUUID.getD "")
          else cache) with hc1
      have hnd1 : (cache1.map Prod.fst).Nodup := by
        rw [hc1]
        split
        · exact keys_eraseEntry_nodup cache _ hnd
        · exact hnd
      split
      · exact keys_insertEntry_nodup _ _ _ hnd1
      · exact hnd1
  · intro hliveent
    unfold getObjectByUUID uuidToString
    simp only []
    rw [hliveent]
    rfl


/-- C5 witness: `Register` on an object whose UUID is already live-cached by
a different instance fails, and `GetObjectByUUID` returns that live
instance. -/
theorem C5_identity_cache_witness :
    (registerObject [("A", .live 2)] ⟨1, some "A", false⟩ none "F").1 = false
    ∧ getObjectByUUID [("A", .live 2)] (some "A") = some 2 :=
  ⟨((C5_identity_cache_amended [("A", .live 2)] ⟨1, some "A", false⟩ none "F" "A"
        (.live 2) 2).1 (by decide) (Or.inr ⟨rfl, rfl⟩) (by decide) (by decide)).1,
   (C5_identity_cache_amended [("A", .live 2)] ⟨1, some "A", false⟩ none "F" "A"
        (.live 2) 2).2.2 (by decide)⟩


/-- Case analysis on a map lookup (`SpawnsKeyExists` guard). -/
def tryFound {A B : Type} (o : Option A) (dflt : B) (k : A → B) : B :=
  match o with
  | none => dflt
  | some x => k x

@[simp] theorem tryFound_none {A B : Type} (dflt : B) (k : A → B) :
    tryFound (none : Option A) dflt k = dflt := rfl

@[simp] theorem tryFound_some {A B : Type} (x : A) (dflt : B) (k : A → B) :
    tryFound (some x) dflt k = k x := rfl

/-! ## Zone partial application: spawns (`ServerDataManager::ApplyZonePartial`) -/

/-- `objects::Spawn`, restricted to the fields the merge touches: the enemy
type and the four appendable lists, plus an opaque remainder of the record
(`rest`) standing for every other field. -/
structure Spawn where
  enemyType : Nat
  drops : List Nat
  dropSetIDs : List Nat
  gifts : List Nat
  giftSetIDs : List Nat
  rest : Nat
deriving DecidableEq, Repr

/-- The zone's `Spawns` map (`std::unordered_map<uint32_t, Spawn>`). -/
abbrev SpawnMap := List (Nat × Spawn)

/-- `GetSpawns(key)` / `SpawnsKeyExists(key)`. -/
def lookupSpawn (m : SpawnMap) (k : Nat) : Option Spawn :=
  (m.find? (fun p => p.1 = k)).map (fun p => p.2)

/-- `SetSpawns(key, spawn)`: overwrite or insert. -/
def setSpawn (m : SpawnMap) (k : Nat) (v : Spawn) : SpawnMap :=
  if (m.find? (fun p => p.1 = k)).isSome then
    m.map (fun p => if p.1 = k then (k, v) else p)
  else m ++ [(k, v)]

/-- One iteration of the spawn-merge loop of
`ServerDataManager::ApplyZonePartial` (`ServerDataManager.cpp`, lines
1163-1188): a partial entry with non-zero enemy type replaces (or inserts)
the zone's spawn under the same key; a zero enemy type whose key exists
appends the partial entry's `dropSetIDs`, `drops`, `giftSetIDs` and
`gifts` onto the existing spawn's lists; a zero enemy type without an
existing key does nothing. -/
def applySpawnEntry (zone : SpawnMap) (k : Nat) (s : Spawn) : SpawnMap :=
  if s.enemyType ≠ 0 then setSpawn zone k s
  else
    tryFound (lookupSpawn zone k) zone fun existing =>
      setSpawn zone k { existing with
        dropSetIDs := existing.dropSetIDs ++ s.dropSetIDs,
        drops := existing.drops ++ s.drops,
        giftSetIDs := existing.giftSetIDs ++ s.giftSetIDs,
        gifts := existing.gifts ++ s.gifts }

/-- The whole `for (auto& sPair : partial->GetSpawns())` loop. -/
def applyPartialSpawns (zone : SpawnMap) (partialSpawns : List (Nat × Spawn)) : SpawnMap :=
  partialSpawns.foldl (fun z p => applySpawnEntry z p.1 p.2) zone


theorem lookupSpawn_cons_pos (p : Nat × Spawn) (t : SpawnMap) (k : Nat) (h : p.1 = k) :
    lookupSpawn (p :: t) k = some p.2 := by
  unfold lookupSpawn
  rw [List.find?_cons_of_pos _ (by simp [h])]
  rfl

theorem lookupSpawn_cons_neg (p : Nat × Spawn) (t : SpawnMap) (k : Nat) (h : ¬ p.1 = k) :
    lookupSpawn (p :: t) k = lookupSpawn t k := by
  unfold lookupSpawn
  rw [List.find?_cons_of_neg _ (by simp [h])]

theorem lookupSpawn_mapset_self (m : SpawnMap) (k : Nat) (v : Spawn)
    (h : (m.find? (fun p => p.1 = k)).isSome) :
    lookupSpawn (m.map (fun p => if p.1 = k then (k, v) else p)) k = some v := by
  induction m with
  | nil => simp [List.find?] at h
  | cons p t ih =>
    simp only [List.map_cons]
    by_cases hp : p.1 = k
    · rw [if_pos hp]
      exact lookupSpawn_cons_pos (k, v) _ k rfl
    · rw [if_neg hp]
      rw [lookupSpawn_cons_neg p _ k hp]
      apply ih
      rw [List.find?_cons_of_neg _ (by simp [hp])] at h
      exact h

theorem lookupSpawn_mapset_other (m : SpawnMap) (k k2 : Nat) (v : Spawn) (h : ¬ k2 = k) :
    lookupSpawn (m.map (fun p => if p.1 = k then (k, v) else p)) k2 = lookupSpawn m k2 := by
  induction m with
  | nil => rfl
  | cons p t ih =>
    simp only [List.map_cons]
    by_cases hp : p.1 = k
    · rw [if_pos hp]
      rw [lookupSpawn_cons_neg (k, v) _ k2 (fun hEq => h hEq.symm)]
      rw [lookupSpawn_cons_neg p t k2 (by rw [hp]; exact fun hEq => h hEq.symm)]
      exact ih
    · rw [if_neg hp]
      by_cases hp2 : p.1 = k2
      · rw [lookupSpawn_cons_pos p _ k2 hp2, lookupSpawn_cons_pos p t k2 hp2]
      · rw [lookupSpawn_cons_neg p _ k2 hp2, lookupSpawn_cons_neg p t k2 hp2]
        exact ih

theorem lookupSpawn_append_self (m : SpawnMap) (k : Nat) (v : Spawn)
    (h : ¬ (m.find? (fun p => p.1 = k)).isSome) :
    lookupSpawn (m ++ [(k, v)]) k = some v := by
  induction m with
  | nil => exact lookupSpawn_cons_pos (k, v) [] k rfl
  | cons p t ih =>
    have hp : ¬ p.1 = k := by
      intro hEq
      exact h (by rw [List.find?_cons_of_pos _ (by simp [hEq])]; rfl)
    rw [List.cons_append, lookupSpawn_cons_neg p _ k hp]
    apply ih
    intro hs
    exact h (by rw [List.find?_cons_of_neg _ (by simp [hp])]; exact hs)

theorem lookupSpawn_append_other (m : SpawnMap) (k k2 : Nat) (v : Spawn) (h : ¬ k2 = k) :
    lookupSpawn (m ++ [(k, v)]) k2 = lookupSpawn m k2 := by
  induction m with
  | nil =>
    rw [List.nil_append, lookupSpawn_cons_neg (k, v) [] k2 (fun hEq => h hEq.symm)]
  | cons p t ih =>
    by_cases hp2 : p.1 = k2
    · rw [List.cons_append, lookupSpawn_cons_pos p _ k2 hp2, lookupSpawn_cons_pos p t k2 hp2]
    · rw [List.cons_append, lookupSpawn_cons_neg p _ k2 hp2, lookupSpawn_cons_neg p t k2 hp2]
      exact ih

theorem lookupSpawn_set_self (m : SpawnMap) (k : Nat) (v : Spawn) :
    lookupSpawn (setSpawn m k v) k = some v := by
  unfold setSpawn
  split
  · rename_i hfound
    exact lookupSpawn_mapset_self m k v hfound
  · rename_i hfound
    exact lookupSpawn_append_self m k v hfound

theorem lookupSpawn_set_other (m : SpawnMap) (k k2 : Nat) (v : Spawn) (h : ¬ k2 = k) :
    lookupSpawn (setSpawn m k v) k2 = lookupSpawn m k2 := by
  unfold setSpawn
  split
  · exact lookupSpawn_mapset_other m k k2 v h
  · exact lookupSpawn_append_other m k k2 v h

/-- C7: for every zone and partial spawn entry, a non-zero enemy type
replaces the zone's spawn stored under the same key, while a zero enemy type
whose key exists leaves the existing spawn's other fields in place and
appends the partial entry's `drops`, `dropSetIDs`, `gifts` and `giftSetIDs`
onto the existing spawn's lists; spawns under other keys are untouched. -/
theorem C7_partial_spawn_merge (zone : SpawnMap) (k : Nat) (s : Spawn) :
    (s.enemyType ≠ 0 →
      (lookupSpawn (applySpawnEntry zone k s) k = some s
        ∧ ∀ k2, ¬ k2 = k →
            lookupSpawn (applySpawnEntry zone k s) k2 = lookupSpawn zone k2))
    ∧ (∀ e : Spawn, s.enemyType = 0 → lookupSpawn zone k = some e →
      (lookupSpawn (applySpawnEntry zone k s) k
          = some { e with dropSetIDs := e.dropSetIDs ++ s.dropSetIDs,
                          drops := e.drops ++ s.drops,
                          giftSetIDs := e.giftSetIDs ++ s.giftSetIDs,
                          gifts := e.gifts ++ s.gifts }
        ∧ ∀ k2, ¬ k2 = k →
            lookupSpawn (applySpawnEntry zone k s) k2 = lookupSpawn zone k2)) := by
  constructor
  · intro hnz
    unfold applySpawnEntry
    rw [if_pos hnz]
    exact ⟨lookupSpawn_set_self zone k s, fun k2 h2 => lookupSpawn_set_other zone k k2 s h2⟩
  · intro e hz hent
    unfold applySpawnEntry
    rw [if_neg (by simp [hz])]
    rw [hent, tryFound_some]
    exact ⟨lookupSpawn_set_self zone k _, fun k2 h2 => lookupSpawn_set_other zone k k2 _ h2⟩

/-- C7 witness: replacing and appending behaviour on a one-spawn zone. -/
theorem C7_partial_spawn_merge_witness :
    lookupSpawn (applySpawnEntry [(5, ⟨100, [1], [2], [3], [4], 9⟩)] 5 ⟨200, [], [], [], [], 7⟩) 5
      = some ⟨200, [], [], [], [], 7⟩
    ∧ lookupSpawn (applySpawnEntry [(5, ⟨100, [1], [2], [3], [4], 9⟩)] 5
        ⟨0, [10], [20], [30], [40], 7⟩) 5
      = some ⟨100, [1, 10], [2, 20], [3, 30], [4, 40], 9⟩ :=
  ⟨((C7_partial_spawn_merge [(5, ⟨100, [1], [2], [3], [4], 9⟩)] 5
      ⟨200, [], [], [], [], 7⟩).1 (by decide)).1,
   ((C7_partial_spawn_merge [(5, ⟨100, [1], [2], [3], [4], 9⟩)] 5
      ⟨0, [10], [20], [30], [40], 7⟩).2 ⟨100, [1], [2], [3], [4], 9⟩ rfl (by decide)).1⟩


/-! ## Script registry (`ServerDataManager::LoadScript`) -/

/-- A successfully evaluated server script: its self-declared `Name` and
`Type` and the functions its root table defines. -/
structure ServerScript where
  name : String
  type : String
  funcs : List String
deriving DecidableEq, Repr

/-- The two script maps of `ServerDataManager`: `mAIScripts` (type `ai`) and
`mScripts` (every other supported type), each keyed by script name. -/
structure ScriptState where
  aiScripts : List (String × ServerScript)
  scripts : List (String × ServerScript)
deriving DecidableEq, Repr

/-- `libcomp::String::ToLower` (ASCII lowering) on one character. -/
def asciiLower (c : Char) : Char :=
  if 'A' ≤ c ∧ c ≤ 'Z' then Char.ofNat (c.toNat + 32) else c

/-- `libcomp::String::ToLower` (ASCII lowering). -/
def toLowerStr (s : String) : String := String.mk (s.data.map asciiLower)

/-- The per-type required-function checks of `ServerDataManager::LoadScript`
(`ServerDataManager.cpp`, lines 2300-2393) for the non-`ai` bucket; an
unknown type is invalid. -/
def typeRequirementsOk (ty : String) (funcs : List String) : Bool :=
  if ty = "eventcondition" || ty = "eventbranchlogic" then funcs.contains "check"
  else if ty = "actiontransform" || ty = "eventtransform" then
    funcs.contains "transform" && !(funcs.contains "prepare")
  else if ty = "actioncustom" then funcs.contains "run"
  else if ty = "skilllogic" then funcs.contains "prepare"
  else if ty = "webapp" then funcs.contains "prepare"
  else if ty = "webgame" then funcs.contains "start"
  else false

/-- `ServerDataManager::LoadScript` (`ServerDataManager.cpp`, lines
2254-2397), from the point where the script has evaluated and `define`
populated `Name` and `Type`: an empty name or type fails; an `ai` script
goes to `mAIScripts` after a duplicate-name check and a `prepare` check; any
other script goes to `mScripts` after a duplicate-name check and its type's
required-function check.  `none` is a failed load. -/
def loadScript (st : ScriptState) (s : ServerScript) : Option ScriptState :=
  if s.name = "" || s.type = "" then none
  else if toLowerStr s.type = "ai" then
    if (st.aiScripts.find? (fun p => p.1 = s.name)).isSome then none
    else if ¬ s.funcs.contains "prepare" then none
    else some { st with aiScripts := st.aiScripts ++ [(s.name, s)] }
  else
    if (st.scripts.find? (fun p => p.1 = s.name)).isSome then none
    else if ¬ typeRequirementsOk (toLowerStr s.type) s.funcs then none
    else some { st with scripts := st.scripts ++ [(s.name, s)] }

theorem find?_key_none_notmem {A : Type} (l : List (String × A)) (u : String)
    (h : l.find? (fun p => p.1 = u) = none) : u ∉ l.map Prod.fst := by
  rw [List.find?_eq_none] at h
  intro hmem
  obtain ⟨p, hp, hfst⟩ := List.mem_map.mp hmem
  exact (by simpa using h p hp : ¬ p.1 = u) hfst

theorem keys_append_single_nodup {A : Type} (l : List (String × A)) (u : String) (e : A)
    (hnd : (l.map Prod.fst).Nodup) (hfind : l.find? (fun p => p.1 = u) = none) :
    ((l ++ [(u, e)]).map Prod.fst).Nodup := by
  rw [List.map_append, List.nodup_append]
  refine ⟨hnd, by simp, ?_⟩
  intro a ha
  simp only [List.map_cons, List.map_nil, List.mem_singleton]
  intro hb
  subst hb
  exact find?_key_none_notmem l _ hfind ha

/-- C9: a script whose name equals that of an already registered script in
its type bucket (`mAIScripts` for type `ai`, `mScripts` for everything else)
fails the load; a successful load keeps the names within each bucket
pairwise distinct; and scripts living in the two different buckets may share
a name. -/
theorem C9_script_name_collision (st : ScriptState) (s : ServerScript) :
    ((toLowerStr s.type = "ai") →
      (st.aiScripts.find? (fun p => p.1 = s.name)).isSome → loadScript st s = none)
    ∧ ((¬ toLowerStr s.type = "ai") →
      (st.scripts.find? (fun p => p.1 = s.name)).isSome → loadScript st s = none)
    ∧ (∀ st2, loadScript st s = some st2 →
        (st.aiScripts.map Prod.fst).Nodup → (st.scripts.map Prod.fst).Nodup →
        ((st2.aiScripts.map Prod.fst).Nodup ∧ (st2.scripts.map Prod.fst).Nodup))
    ∧ (∃ st1 st2 : ScriptState,
        loadScript ⟨[], []⟩ ⟨"foo", "ai", ["define", "prepare"]⟩ = some st1
        ∧ loadScript st1 ⟨"foo", "eventcondition", ["define", "check"]⟩ = some st2) := by
  refine ⟨?_, ?_, ?_, ?_⟩
  · intro hai hdup
    unfold loadScript
    by_cases hempty : (s.name = "" || s.type = "") = true
    · rw [if_pos hempty]
    · rw [if_neg hempty, if_pos hai, if_pos hdup]
  · intro hai hdup
    unfold loadScript
    by_cases hempty : (s.name = "" || s.type = "") = true
    · rw [if_pos hempty]
    · rw [if_neg hempty, if_neg hai, if_pos hdup]
  · intro st2 hload hnd1 hnd2
    unfold loadScript at hload
    split at hload
    · exact absurd hload (by simp)
    · split at hload
      · split at hload
        · exact absurd hload (by simp)
        · split at hload
          · exact absurd hload (by simp)
          · rename_i hdup _
            injection hload with h
            subst h
            refine ⟨?_, hnd2⟩
            exact keys_append_single_nodup st.aiScripts s.name s hnd1
              (Option.not_isSome_iff_eq_none.mp (by simpa using hdup))
      · split at hload
        · exact absurd hload (by simp)
        · split at hload
          · exact absurd hload (by simp)
          · rename_i hdup _
            injection hload with h
            subst h
            refine ⟨hnd1, ?_⟩
            exact keys_append_single_nodup st.scripts s.name s hnd2
              (Option.not_isSome_iff_eq_none.mp (by simpa using hdup))
  · refine ⟨⟨[("foo", ⟨"foo", "ai", ["define", "prepare"]⟩)], []⟩,
      ⟨[("foo", ⟨"foo", "ai", ["define", "prepare"]⟩)],
        [("foo", ⟨"foo", "eventcondition", ["define", "check"]⟩)]⟩, ?_, ?_⟩
    · decide
    · decide

/-- C9 witness: loading a second `ai` script named `foo` fails while the
registry already holds an `ai` script of that name. -/
theorem C9_script_name_collision_witness :
    loadScript ⟨[("foo", ⟨"foo", "ai", ["define", "prepare"]⟩)], []⟩
        ⟨"foo", "ai", ["define", "prepare"]⟩ = none :=
  (C9_script_name_collision ⟨[("foo", ⟨"foo", "ai", ["define", "prepare"]⟩)], []⟩
      ⟨"foo", "ai", ["define", "prepare"]⟩).1 (by decide) (by decide)


/-! ## DataStore search paths (`DataStore::AddSearchPaths`) -/

/-- The PhysFS state touched by the datastore mounts: the ordered search
path (first entry is looked up first) and the write directory. -/
structure VFS where
  searchPaths : List String
  writeDir : Option String
deriving DecidableEq, Repr

/-- `PHYSFS_mount(path, "/", appendToPath)`: `appendToPath = 0` prepends to
the search path, `1` appends (PhysFS documented semantics; the comment in
`DataStore::AddSearchPath` states the same: the path is prepended and "a
path earlier in the list will override files contained in a path later in
the list"). -/
def physfsMount (vfs : VFS) (path : String) (append : Bool) : VFS :=
  if append then { vfs with searchPaths := vfs.searchPaths ++ [path] }
  else { vfs with searchPaths := path :: vfs.searchPaths }

/-- `DataStore::AddSearchPath(path, append)` (`DataStore.cpp`, lines
217-231); `AddSearchPaths` calls it with the declaration's default
`append = false`. -/
def addSearchPath (vfs : VFS) (path : String) (append : Bool) : VFS :=
  physfsMount vfs path append

/-- `DataStore::AddSearchPaths(paths)` (`DataStore.cpp`, lines 71-98): fails
on an empty list; otherwise mounts each listed path front-to-back — each one
prepended, so, as the function's own comment says, "Search order will be
last to first path in this list" — and sets the write directory to the last
path. -/
def addSearchPaths (vfs : VFS) (paths : List String) : Option VFS :=
  if paths.isEmpty then none
  else
    let vfs1 := paths.foldl (fun v p => addSearchPath v p false) vfs
    some { vfs1 with writeDir := some (paths.getLastD "") }

/-- Which files each mounted real directory holds. -/
abbrev FileStore := List (String × List String)

/-- Whether the directory mounted at `dir` holds `file`. -/
def dirHasFile (store : FileStore) (dir file : String) : Bool :=
  ((store.find? (fun p => p.1 = dir)).map (fun pr => pr.2.contains file)).getD false

/-- PhysFS file resolution over the search path: the first entry holding the
file wins. -/
def resolve (store : FileStore) (vfs : VFS) (file : String) : Option String :=
  vfs.searchPaths.find? (fun dir => dirHasFile store dir file)

theorem addSearchPath_false (vfs : VFS) (p : String) :
    addSearchPath vfs p false = ⟨p :: vfs.searchPaths, vfs.writeDir⟩ := rfl

theorem addSearchPaths_foldl (paths : List String) (vfs : VFS) :
    (paths.foldl (fun v p => addSearchPath v p false) vfs).searchPaths
      = paths.reverse ++ vfs.searchPaths
    ∧ (paths.foldl (fun v p => addSearchPath v p false) vfs).writeDir = vfs.writeDir := by
  induction paths generalizing vfs with
  | nil => simp
  | cons p t ih =>
    simp only [List.foldl_cons, List.reverse_cons]
    have h := ih (addSearchPath vfs p false)
    refine ⟨?_, ?_⟩
    · rw [h.1, addSearchPath_false]
      simp
    · rw [h.2, addSearchPath_false]

/-- C8 counterexample: two search paths both holding file `f`; the mounted
search order is the reverse of the listed order and lookup resolves `f` from
the LAST listed path, not the first. -/
theorem C8_counterexample :
    addSearchPaths ⟨[], none⟩ ["p1", "p2"] = some ⟨["p2", "p1"], some "p2"⟩
    ∧ resolve [("p1", ["f"]), ("p2", ["f"])] ⟨["p2", "p1"], some "p2"⟩ "f" = some "p2"
    ∧ ¬ ("p2" : String) = "p1" := by decide

/-- C8 (amended): `AddSearchPaths` mounts the listed paths so that file
lookup resolves them in the REVERSE of the listed order — last listed path
first — and the last listed path is the write directory. -/
theorem C8_search_order_amended (paths : List String) (store : FileStore) (v : VFS)
    (hv : addSearchPaths ⟨[], none⟩ paths = some v) :
    v.searchPaths = paths.reverse
    ∧ v.writeDir = some (paths.getLastD "")
    ∧ ∀ file, resolve store v file
        = paths.reverse.find? (fun dir => dirHasFile store dir file) := by
  unfold addSearchPaths at hv
  split at hv
  · exact absurd hv (by simp)
  · simp only [] at hv
    injection hv with h
    subst h
    have hf := addSearchPaths_foldl paths ⟨[], none⟩
    refine ⟨?_, rfl, ?_⟩
    · simp only []
      rw [hf.1]
      simp
    · intro file
      unfold resolve
      simp only []
      rw [hf.1]
      simp

/-- C8 witness: the amended ordering at the counterexample's inputs. -/
theorem C8_search_order_amended_witness :
    (⟨["p2", "p1"], some "p2"⟩ : VFS).searchPaths = (["p1", "p2"] : List String).reverse
    ∧ (⟨["p2", "p1"], some "p2"⟩ : VFS).writeDir
        = some ((["p1", "p2"] : List String).getLastD "") :=
  ⟨(C8_search_order_amended ["p1", "p2"] [("p1", ["f"]), ("p2", ["f"])]
      ⟨["p2", "p1"], some "p2"⟩ (by decide)).1,
   (C8_search_order_amended ["p1", "p2"] [("p1", ["f"]), ("p2", ["f"])]
      ⟨["p2", "p1"], some "p2"⟩ (by decide)).2.1⟩

end Libcomp
